import Mathlib

/-!
Shallow embedding of `src/audiobook_generator/chunk_to_pages.py`.

Text is modelled as `List Char` (Python `str`).  Python's `str.split()`
and `str.strip()` act on runs of whitespace; we model the whitespace
class by `is_space`.  The external smart-splitter (`split_text`, a
network/LLM call defined outside this repository) is a parameter
`splitter : List Char → List ChunkFormat`; the `multi_thread` fan-out of
the `speedy_utils` library is modelled as an order-preserving map, which
is the ordering guarantee the library provides (results are collected by
submission index).  The `while` loop of `split_long_page` is given a
fuel parameter and returns `none` when the fuel is exhausted, so that
non-termination of the Python loop is observable as `∀ fuel, … = none`.
-/

/-- Python whitespace characters relevant to `str.split` / `str.strip`. -/
def is_space (c : Char) : Bool :=
  c = ' ' || c = '\t' || c = '\n' || c = '\r' || c = '\x0b' || c = '\x0c'

/-- Helper for `word_count`: `inw` records whether the previous character
was inside a word. -/
def word_count_go (inw : Bool) : List Char → Nat
  | [] => 0
  | c :: rest =>
    if is_space c then word_count_go false rest
    else (if inw then 0 else 1) + word_count_go true rest

/-- Embedding of `word_count(text) = len(text.split())` (chunk_to_pages.py line 38). -/
def word_count (s : List Char) : Nat := word_count_go false s

/-- Python `str.strip()`: drop whitespace from both ends. -/
def strip (s : List Char) : List Char :=
  ((s.dropWhile is_space).reverse.dropWhile is_space).reverse

/-- All non-whitespace characters of `s`, in order ("ignoring
whitespace" in the coverage property). -/
def strip_ws (s : List Char) : List Char := s.filter (fun c => !(is_space c))

/-- Index of the last `'.'` in `s` (Python `str.rfind(".")`), `none`
when there is none (Python returns `-1`). -/
def rfind_dot : List Char → Option Nat
  | [] => none
  | c :: rest =>
    match rfind_dot rest with
    | some j => some (j + 1)
    | none => if c = '.' then some 0 else none

/-- Embedding of `split_long_page` (chunk_to_pages.py lines 42-55).  The Python
`while wc > target_wc` loop is modelled with fuel; each iteration takes
`page[:target_wc]`, looks for the last period in it, and cuts there.
`rfind` returning `-1` makes Python cut at `page[:-1]` / `page[-1:]`,
i.e. at character index `length - 1`. -/
def split_long_page (fuel : Nat) (page : List Char) (target_wc : Nat) :
    Option (List (List Char)) :=
  if word_count page ≤ target_wc then some [page]
  else
    match fuel with
    | 0 => none
    | fuel + 1 =>
      let proposed := page.take target_wc
      let n :=
        match rfind_dot proposed with
        | some k => k
        | none => page.length - 1
      match split_long_page fuel (page.drop n) target_wc with
      | some rest => some (page.take n :: rest)
      | none => none

/-- The greedy accumulation loop of `repartition`
(chunk_to_pages.py lines 60-70); `current` is `current_input`. -/
def group_pages_go (current : List Char) (pages : List (List Char)) (target : Nat) :
    List (List Char) :=
  match pages with
  | [] => if current.isEmpty then [] else [current]
  | p :: rest =>
    if word_count current + word_count p < target then
      group_pages_go (current ++ p) rest target
    else if current.isEmpty then group_pages_go p rest target
    else current :: group_pages_go p rest target

/-- The greedy grouping stage of `repartition`, started with the empty
`current_input`. -/
def group_pages (pages : List (List Char)) (target : Nat) : List (List Char) :=
  group_pages_go [] pages target

/-- The hard-split post-pass of `repartition`
(chunk_to_pages.py lines 72-78): any input whose word count exceeds
`target * 1.5` (exactly: `2 * wc > 3 * target`) is replaced by the
pieces of `split_long_page`. -/
def post_pass (fuel : Nat) (inputs : List (List Char)) (target : Nat) :
    Option (List (List Char)) :=
  match inputs with
  | [] => some []
  | i :: rest =>
    match (if 2 * word_count i > 3 * target then split_long_page fuel i target
           else some [i]),
          post_pass fuel rest target with
    | some hd, some tl => some (hd ++ tl)
    | _, _ => none

/-- The record type returned by the external smart-splitter
(`ChunkFormat` in chatgpt_format_text.py): a title and a text. -/
structure ChunkFormat where
  title : List Char
  text : List Char
deriving DecidableEq, Repr

/-- The dict built at chunk_to_pages.py lines 93-97: the model dump of a
`ChunkFormat` plus the two duplicated fields `text_md` and `page_title`. -/
structure OutRecord where
  title : List Char
  text : List Char
  text_md : List Char
  page_title : List Char
deriving DecidableEq, Repr

/-- Lines 94-96: `out["text_md"] = out["text"]; out["page_title"] = out["title"]`. -/
def to_out_record (c : ChunkFormat) : OutRecord :=
  { title := c.title, text := c.text, text_md := c.text, page_title := c.title }

/-- Embedding of `repartition` (chunk_to_pages.py lines 58-99): greedy grouping,
hard-split post-pass, then every input is handed to the external
splitter (`multi_thread` over `split_text`, modelled as an
order-preserving map) and the per-input chunk lists are flattened and
dumped into records. -/
def repartition (splitter : List Char → List ChunkFormat) (fuel : Nat)
    (pages : List (List Char)) (target_input_each : Nat) :
    Option (List OutRecord) :=
  match post_pass fuel (group_pages pages target_input_each) target_input_each with
  | none => none
  | some inputs => some (((inputs.map splitter).flatten).map to_out_record)

/-- The literal part of the page-marker pattern before the first digit
group: `<span id="page-`. -/
def marker_pre : List Char :=
  ['<', 's', 'p', 'a', 'n', ' ', 'i', 'd', '=', '"', 'p', 'a', 'g', 'e', '-']

/-- The literal part of the page-marker pattern after the second digit
group: `"></span>`. -/
def marker_post : List Char := ['"', '>', '<', '/', 's', 'p', 'a', 'n', '>']

/-- Match a literal prefix, returning the rest of the input. -/
def parse_lit : List Char → List Char → Option (List Char)
  | [], s => some s
  | _ :: _, [] => none
  | c :: cs, d :: ds => if c = d then parse_lit cs ds else none

/-- Match one or more digits greedily (regex `\d+`; maximal munch is
faithful because the following pattern character is never a digit). -/
def parse_digits : List Char → Option (List Char)
  | [] => none
  | c :: rest => if c.isDigit then some (rest.dropWhile Char.isDigit) else none

/-- Match the regex `<span id="page-\d+-\d+"></span>`
(chunk_to_pages.py line 22) at the head of `s`, returning the remaining
input on success. -/
def marker_at (s : List Char) : Option (List Char) :=
  (parse_lit marker_pre s).bind fun s1 =>
    (parse_digits s1).bind fun s2 =>
      (parse_lit ['-'] s2).bind fun s3 =>
        (parse_digits s3).bind fun s4 => parse_lit marker_post s4

/-- The `re.split` scan: walk the text, cutting a segment at every
marker occurrence.  Each step consumes at least one character (a marker
match consumes the whole marker), so fuel initialised to the length of
the text never runs out; the fuel-zero branch is unreachable and only
makes the recursion structural. -/
def split_markers_go : Nat → List Char → List Char → List (List Char)
  | _, acc, [] => [acc.reverse]
  | 0, acc, s => [acc.reverse ++ s]
  | fuel + 1, acc, c :: rest =>
    match marker_at (c :: rest) with
    | some rest2 => acc.reverse :: split_markers_go fuel [] rest2
    | none => split_markers_go fuel (c :: acc) rest

/-- Embedding of `re.split(pattern, text)` for the page-marker pattern
(chunk_to_pages.py line 25). -/
def split_markers (s : List Char) : List (List Char) :=
  split_markers_go s.length [] s

/-- The marker-splitting stage of `chunk_into_pages`
(chunk_to_pages.py lines 25-28): split at markers, strip each segment,
drop the segments that are empty after stripping. -/
def raw_pages (text : List Char) : List (List Char) :=
  ((split_markers text).map strip).filter (fun p => !p.isEmpty)

/-- The optional `page_range` slice `pages[start:end]`
(chunk_to_pages.py lines 29-31), for the non-negative ranges the
callers use. -/
def apply_range (pages : List (List Char)) :
    Option (Nat × Nat) → List (List Char)
  | none => pages
  | some (s, e) => (pages.drop s).take (e - s)

/-- Embedding of `chunk_into_pages` (chunk_to_pages.py lines 7-32): marker split,
strip-and-filter, optional range slice, then `repartition` with its
default `target_input_each = 3000`. -/
def chunk_into_pages (splitter : List Char → List ChunkFormat) (fuel : Nat)
    (text : List Char) (page_range : Option (Nat × Nat)) :
    Option (List OutRecord) :=
  repartition splitter fuel (apply_range (raw_pages text) page_range) 3000

theorem strip_ws_append (a b : List Char) :
    strip_ws (a ++ b) = strip_ws a ++ strip_ws b := by
  simp [strip_ws, List.filter_append]

theorem strip_ws_reverse (s : List Char) :
    strip_ws s.reverse = (strip_ws s).reverse := by
  simp [strip_ws, List.filter_reverse]

theorem strip_ws_dropWhile (s : List Char) :
    strip_ws (s.dropWhile is_space) = strip_ws s := by
  induction s with
  | nil => rfl
  | cons c rest ih =>
    by_cases h : is_space c
    · simpa [strip_ws, List.dropWhile_cons, h, List.filter_cons] using ih
    · simp [strip_ws, List.dropWhile_cons, h, List.filter_cons]

theorem strip_ws_strip (s : List Char) : strip_ws (strip s) = strip_ws s := by
  unfold strip
  rw [strip_ws_reverse, strip_ws_dropWhile, strip_ws_reverse,
    List.reverse_reverse, strip_ws_dropWhile]

theorem strip_eq_nil_strip_ws (s : List Char) (h : strip s = []) :
    strip_ws s = [] := by
  have := strip_ws_strip s
  rw [h] at this
  exact this.symm

theorem strip_filter_flatten (segs : List (List Char)) :
    strip_ws (((segs.map strip).filter (fun p => !p.isEmpty)).flatten) =
      strip_ws segs.flatten := by
  induction segs with
  | nil => rfl
  | cons s rest ih =>
    by_cases h : strip s = []
    · simp only [List.map_cons, List.filter_cons, h, List.isEmpty_nil,
        Bool.not_true, List.flatten_cons]
      rw [if_neg (by simp), strip_ws_append, strip_eq_nil_strip_ws s h, ih]
      rfl
    · have hne : ¬ (strip s).isEmpty := by simpa [List.isEmpty_iff] using h
      simp only [List.map_cons, List.filter_cons, List.flatten_cons]
      rw [if_pos (by simpa using hne)]
      simp only [List.flatten_cons]
      rw [strip_ws_append, strip_ws_append, strip_ws_strip, ih]

theorem split_long_page_flatten :
    ∀ (fuel : Nat) (page : List Char) (t : Nat) (ps : List (List Char)),
      split_long_page fuel page t = some ps → ps.flatten = page := by
  intro fuel
  induction fuel with
  | zero =>
    intro page t ps h
    rw [split_long_page] at h
    split at h
    · cases h; simp
    · exact absurd h (by simp)
  | succ n ih =>
    intro page t ps h
    rw [split_long_page] at h
    split at h
    · cases h; simp
    · simp only [] at h
      split at h
      · rename_i rest hrest
        cases h
        simp only [List.flatten_cons]
        rw [ih _ _ _ hrest, List.take_append_drop]
      · exact absurd h (by simp)

theorem post_pass_flatten :
    ∀ (fuel : Nat) (inputs : List (List Char)) (t : Nat) (us : List (List Char)),
      post_pass fuel inputs t = some us → us.flatten = inputs.flatten := by
  intro fuel inputs
  induction inputs with
  | nil =>
    intro t us h
    rw [post_pass] at h
    cases h
    rfl
  | cons i rest ih =>
    intro t us h
    rw [post_pass] at h
    split at h
    · rename_i hd tl hhd htl
      cases h
      simp only [List.flatten_append, List.flatten_cons]
      rw [ih _ _ htl]
      congr 1
      split at hhd
      · exact split_long_page_flatten _ _ _ _ hhd
      · cases hhd; simp
    · exact absurd h (by simp)

theorem group_pages_go_flatten :
    ∀ (pages : List (List Char)) (current : List Char) (target : Nat),
      (group_pages_go current pages target).flatten = current ++ pages.flatten := by
  intro pages
  induction pages with
  | nil =>
    intro current target
    rw [group_pages_go]
    by_cases h : current.isEmpty
    · simp [h, List.isEmpty_iff.mp h]
    · simp [h]
  | cons p rest ih =>
    intro current target
    rw [group_pages_go]
    by_cases hlt : word_count current + word_count p < target
    · rw [if_pos hlt, ih]
      simp
    · rw [if_neg hlt]
      by_cases hc : current.isEmpty
      · rw [if_pos hc, ih]
        simp [List.isEmpty_iff.mp hc]
      · rw [if_neg hc]
        simp only [List.flatten_cons]
        rw [ih]

theorem flatten_ne_nil (cg : List (List Char)) (hc : cg ≠ [])
    (h : ∀ q ∈ cg, q ≠ []) : cg.flatten ≠ [] := by
  cases cg with
  | nil => exact absurd rfl hc
  | cons x xs =>
    have hx : x ≠ [] := h x (by simp)
    simp [List.append_eq_nil, hx]

theorem group_pages_go_partition :
    ∀ (pages : List (List Char)) (cg : List (List Char)) (target : Nat),
      (∀ p ∈ pages, p ≠ []) → (∀ q ∈ cg, q ≠ []) →
      ∃ gs : List (List (List Char)),
        group_pages_go cg.flatten pages target = gs.map List.flatten ∧
        gs.flatten = cg ++ pages := by
  intro pages
  induction pages with
  | nil =>
    intro cg target _ hcg
    by_cases hc : cg = []
    · subst hc
      exact ⟨[], by simp [group_pages_go], by simp⟩
    · have hne : cg.flatten ≠ [] := flatten_ne_nil cg hc hcg
      refine ⟨[cg], ?_, by simp⟩
      rw [group_pages_go, if_neg (by simp [List.isEmpty_iff, hne])]
      simp
  | cons p rest ih =>
    intro cg target hp hcg
    have hpne : p ≠ [] := hp p (by simp)
    have hrest : ∀ q ∈ rest, q ≠ [] := fun q hq => hp q (by simp [hq])
    have hsing : ∀ q ∈ [p], q ≠ [] := by
      intro q hq
      rw [List.mem_singleton.mp hq]
      exact hpne
    rw [group_pages_go]
    by_cases hlt : word_count cg.flatten + word_count p < target
    · rw [if_pos hlt]
      have hcg' : ∀ q ∈ cg ++ [p], q ≠ [] := by
        intro q hq
        rcases List.mem_append.mp hq with h1 | h2
        · exact hcg q h1
        · rw [List.mem_singleton.mp h2]
          exact hpne
      obtain ⟨gs, h1, h2⟩ := ih (cg ++ [p]) target hrest hcg'
      refine ⟨gs, ?_, ?_⟩
      · rw [← h1]
        congr 1
        simp
      · rw [h2]
        simp
    · rw [if_neg hlt]
      by_cases hc : cg = []
      · subst hc
        rw [if_pos (by simp)]
        obtain ⟨gs, h1, h2⟩ := ih [p] target hrest hsing
        refine ⟨gs, ?_, ?_⟩
        · rw [← h1]
          congr 1
          simp
        · rw [h2]
          simp
      · have hne : cg.flatten ≠ [] := flatten_ne_nil cg hc hcg
        rw [if_neg (by simp [List.isEmpty_iff, hne])]
        obtain ⟨gs, h1, h2⟩ := ih [p] target hrest hsing
        refine ⟨cg :: gs, ?_, ?_⟩
        · simp only [List.map_cons]
          congr 1
          rw [← h1]
          congr 1
          simp
        · simp [h2]

theorem dispatch_strip_ws (splitter : List Char → List ChunkFormat)
    (hs : ∀ s, strip_ws (((splitter s).map ChunkFormat.text).flatten) = strip_ws s) :
    ∀ us : List (List Char),
      strip_ws (((((us.map splitter).flatten).map to_out_record).map
        OutRecord.text).flatten) = strip_ws us.flatten := by
  intro us
  induction us with
  | nil => rfl
  | cons u us ih =>
    simp only [List.map_cons, List.flatten_cons, List.map_append, List.flatten_append]
    rw [strip_ws_append, strip_ws_append, List.map_map]
    have hcomp : (OutRecord.text ∘ to_out_record) = ChunkFormat.text := by
      funext c
      rfl
    rw [hcomp, hs u, ih]

/-- C1: for every document, provided the external smart-splitter
satisfies its coverage contract (its chunks, concatenated, reproduce its
input up to whitespace) and the hard-split loop terminates (the pipeline
returns a result), concatenating the texts of all output records in
output order reproduces the non-marker characters of the document up to
whitespace; moreover the output is the in-order flattening of the
splitter's chunk lists over units that partition the raw pages into
consecutive groups, so chunks of an earlier raw page never follow chunks
of a later one. -/
theorem c1_coverage_and_order (splitter : List Char → List ChunkFormat)
    (fuel : Nat) (doc : List Char)
    (hs : ∀ s, strip_ws (((splitter s).map ChunkFormat.text).flatten) = strip_ws s)
    (out : List OutRecord)
    (hout : chunk_into_pages splitter fuel doc none = some out) :
    strip_ws ((out.map OutRecord.text).flatten) =
      strip_ws ((split_markers doc).flatten) ∧
    ∃ (gs : List (List (List Char))) (us : List (List Char)),
      gs.flatten = raw_pages doc ∧
      group_pages (raw_pages doc) 3000 = gs.map List.flatten ∧
      post_pass fuel (gs.map List.flatten) 3000 = some us ∧
      out = ((us.map splitter).flatten).map to_out_record := by
  have h0 : repartition splitter fuel (raw_pages doc) 3000 = some out := hout
  rw [repartition] at h0
  cases hpp : post_pass fuel (group_pages (raw_pages doc) 3000) 3000 with
  | none =>
    rw [hpp] at h0
    exact absurd h0 (by simp)
  | some us0 =>
    rw [hpp] at h0
    have hout_eq : out = ((us0.map splitter).flatten).map to_out_record :=
      (Option.some.inj h0).symm
    have hne : ∀ p ∈ raw_pages doc, p ≠ [] := by
      intro p hp
      rw [raw_pages] at hp
      have := List.of_mem_filter hp
      simpa [List.isEmpty_iff] using this
    obtain ⟨gs, hg1, hg2⟩ :=
      group_pages_go_partition (raw_pages doc) [] 3000 hne (by intro q hq; simp at hq)
    have hg1a : group_pages (raw_pages doc) 3000 = gs.map List.flatten := hg1
    refine ⟨?_, gs, us0, by simpa using hg2, hg1a, ?_, hout_eq⟩
    · rw [hout_eq, dispatch_strip_ws splitter hs us0,
        post_pass_flatten fuel _ 3000 us0 hpp]
      have hgf : (group_pages (raw_pages doc) 3000).flatten = (raw_pages doc).flatten := by
        rw [group_pages, group_pages_go_flatten]
        rfl
      rw [hgf, raw_pages, strip_filter_flatten]
    · rw [← hg1a]
      exact hpp

/-- Witness for C1 at a concrete document, splitter and fuel. -/
theorem c1_coverage_and_order_witness :
    strip_ws ((([⟨[], "hello".toList, "hello".toList, []⟩] : List OutRecord).map
      OutRecord.text).flatten) =
      strip_ws ((split_markers "hello".toList).flatten) ∧
    ∃ (gs : List (List (List Char))) (us : List (List Char)),
      gs.flatten = raw_pages "hello".toList ∧
      group_pages (raw_pages "hello".toList) 3000 = gs.map List.flatten ∧
      post_pass 1 (gs.map List.flatten) 3000 = some us ∧
      ([⟨[], "hello".toList, "hello".toList, []⟩] : List OutRecord) =
        ((us.map (fun s => [(⟨[], s⟩ : ChunkFormat)])).flatten).map to_out_record :=
  c1_coverage_and_order (fun s => [⟨[], s⟩]) 1 "hello".toList
    (fun s => by simp) [⟨[], "hello".toList, "hello".toList, []⟩] (by decide)

/-- C2: evaluation of the post-pass at the failing input: the unit
`"a b c d e f"` (6 words, no period) with `target = 2` is hard-split,
but because `rfind(".")` returns `-1` and `-1` is used as a slice index,
the emitted piece `"a b c d e "` still has 5 words, exceeding the
claimed bound `target * 1.5 = 3`. -/
theorem c2_code_evaluation :
    post_pass 5 (group_pages ["a b c d e f".toList] 2) 2 =
      some ["a b c d e ".toList, "f".toList] ∧
    2 * word_count "a b c d e ".toList > 3 * 2 := by decide

/-- C3 counterexample: when the external splitter returns an empty chunk
list for a unit, `repartition` emits nothing for it — the non-empty
unit `"hello world"` vanishes from the output instead of being passed
through as a single untitled chunk, and no retry happens. -/
theorem c3_counterexample :
    repartition (fun _ => []) 1 ["hello world".toList] 3000 = some [] ∧
    "hello world".toList ≠ [] := by decide

/-- C3 amended: `repartition` flattens the per-unit responses verbatim;
with a splitter that returns no chunks the whole output is empty (or the
pipeline fails for lack of fuel) — dropped content, not pass-through. -/
theorem c3_amended_empty_response_drops :
    ∀ (fuel : Nat) (pages : List (List Char)) (target : Nat),
      repartition (fun _ => []) fuel pages target = none ∨
      repartition (fun _ => []) fuel pages target = some [] := by
  intro fuel pages target
  rw [repartition]
  cases hpp : post_pass fuel (group_pages pages target) target with
  | none =>
    left
    rfl
  | some us =>
    right
    simp

/-- C4 counterexample: a one-word unit (far below the target) is still
sent to the external splitter and replaced by the splitter's chunk; it
is not passed through unchanged with an empty title. -/
theorem c4_counterexample :
    repartition (fun _ => [⟨"T".toList, "X".toList⟩]) 1 ["hi".toList] 3000 =
      some [⟨"T".toList, "X".toList, "X".toList, "T".toList⟩] ∧
    ¬ ("X".toList = "hi".toList) := by decide

/-- C4 amended: every unit, small or large, is dispatched to the
external splitter; the output is exactly the in-order flattening of the
splitter's responses, so every output record originates from an external
response. -/
theorem c4_amended_all_units_dispatched :
    ∀ (splitter : List Char → List ChunkFormat) (fuel : Nat)
      (pages : List (List Char)) (target : Nat) (us : List (List Char)),
      post_pass fuel (group_pages pages target) target = some us →
      repartition splitter fuel pages target =
        some (((us.map splitter).flatten).map to_out_record) ∧
      ∀ r ∈ ((us.map splitter).flatten).map to_out_record,
        ∃ u ∈ us, ∃ c ∈ splitter u, r = to_out_record c := by
  intro splitter fuel pages target us hpp
  constructor
  · rw [repartition, hpp]
  · intro r hr
    obtain ⟨c, hc, rfl⟩ := List.mem_map.mp hr
    obtain ⟨l, hl, hcl⟩ := List.mem_flatten.mp hc
    obtain ⟨u, hu, rfl⟩ := List.mem_map.mp hl
    exact ⟨u, hu, c, hcl, rfl⟩

/-- Witness for C4's amended theorem at a concrete splitter and input. -/
theorem c4_amended_witness :
    repartition (fun _ => [⟨"T".toList, "X".toList⟩]) 1 ["hi".toList] 3000 =
      some (((["hi".toList].map (fun _ => [(⟨"T".toList, "X".toList⟩ : ChunkFormat)])).flatten).map
        to_out_record) ∧
    ∀ r ∈ ((["hi".toList].map (fun _ => [(⟨"T".toList, "X".toList⟩ : ChunkFormat)])).flatten).map
        to_out_record,
      ∃ u ∈ ["hi".toList], ∃ c ∈ [(⟨"T".toList, "X".toList⟩ : ChunkFormat)],
        r = to_out_record c :=
  c4_amended_all_units_dispatched (fun _ => [⟨"T".toList, "X".toList⟩]) 1
    ["hi".toList] 3000 ["hi".toList] (by decide)

/-- C5: evaluation at a period-free input: `rfind(".")` finds no period
in the two-character window of `"a b c d e f"`, and the code then cuts
at character index `length - 1 = 10` (the Python slices `page[:-1]` /
`page[-1:]`), not at the raw target-offset index 2 the claim states. -/
theorem c5_code_evaluation :
    split_long_page 5 "a b c d e f".toList 2 =
      some ["a b c d e ".toList, "f".toList] ∧
    rfind_dot ("a b c d e f".toList.take 2) = none ∧
    ("a b c d e ".toList).length ≠ 2 := by decide

/-- One unfolding step of `split_long_page` when the word count is over
target and the last period of the window sits at index 0: the cut piece
is empty and the page does not shrink. -/
theorem split_long_page_succ_dot (k : Nat) (page : List Char) (t : Nat)
    (hw : ¬ word_count page ≤ t) (hr : rfind_dot (page.take t) = some 0) :
    split_long_page (k + 1) page t =
      match split_long_page k page t with
      | some rest => some ([] :: rest)
      | none => none := by
  rw [split_long_page, if_neg hw]
  simp only [hr, List.take_zero, List.drop_zero]

/-- C6: the hard-split loop does not terminate on every input: on the
page `".a b"` with target 1, the only period of the window is at index
0, so each iteration appends an empty piece and leaves the page
unchanged — no amount of fuel yields a result (the Python loop runs
forever). -/
theorem c6_nonterminating :
    ∀ fuel : Nat, split_long_page fuel ".a b".toList 1 = none := by
  intro fuel
  induction fuel with
  | zero => decide
  | succ k ih =>
    rw [split_long_page_succ_dot k ".a b".toList 1 (by decide) (by decide), ih]

/-- C7 counterexample: the dispatch/assembly stage performs no
emptiness filtering: a splitter that covers its input but also returns
a chunk with empty text (permitted by the §6 interface) yields a final
output record whose text is empty after trimming. -/
theorem c7_counterexample :
    chunk_into_pages (fun s => [⟨[], []⟩, ⟨[], s⟩]) 1 "hi".toList none =
      some [⟨[], [], [], []⟩, ⟨[], "hi".toList, "hi".toList, []⟩] ∧
    ∃ r ∈ [⟨[], [], [], []⟩, (⟨[], "hi".toList, "hi".toList, []⟩ : OutRecord)],
      strip (OutRecord.text r) = [] := by
  constructor
  · decide
  · exact ⟨⟨[], [], [], []⟩, by simp, rfl⟩

/-- C7 amended: only the marker-splitting stage discards whitespace-only
segments — every raw page is a non-empty trimmed segment; the later
stages emit the external splitter's chunks verbatim without any
emptiness check. -/
theorem c7_amended_raw_pages_nonempty :
    ∀ (doc : List Char) (p : List Char), p ∈ raw_pages doc →
      p ≠ [] ∧ ∃ q ∈ split_markers doc, p = strip q := by
  intro doc p hp
  rw [raw_pages] at hp
  have hmem := List.mem_of_mem_filter hp
  have hne := List.of_mem_filter hp
  obtain ⟨q, hq, rfl⟩ := List.mem_map.mp hmem
  refine ⟨?_, q, hq, rfl⟩
  simpa [List.isEmpty_iff] using hne

/-- Witness for C7's amended theorem on a concrete document. -/
theorem c7_amended_witness :
    "hi".toList ≠ [] ∧ ∃ q ∈ split_markers "hi".toList, "hi".toList = strip q :=
  c7_amended_raw_pages_nonempty "hi".toList "hi".toList (by decide)

/-- A 40-word raw page: 40 copies of the word `w` separated by single
spaces (79 characters, no leading or trailing whitespace). -/
def page40 : List Char := List.intercalate [' '] (List.replicate 40 ['w'])

/-- C8 counterexample: with target 100 and three 40-word pages, the
greedy loop does produce 2 units, but their word counts are [79, 40],
not [80, 40]: pages are concatenated with no separator, so the last
word of page 1 fuses with the first word of page 2. -/
theorem c8_counterexample :
    ¬ ((group_pages [page40, page40, page40] 100).map word_count = [80, 40]) := by
  decide

/-- C8 amended: the greedy loop combines pages 1 and 2 (the closure
test uses the sum 40 + 40 = 80 < 100) and starts a new unit at page 3
(79 + 40 = 119 ≥ 100), producing exactly the units
[page1 ++ page2, page3] with word counts [79, 40]. -/
theorem c8_amended :
    word_count page40 = 40 ∧
    group_pages [page40, page40, page40] 100 = [page40 ++ page40, page40] ∧
    (group_pages [page40, page40, page40] 100).map word_count = [79, 40] := by
  decide

/-- C9: the marker-splitting step on a document whose three texts are
separated by the two page markers produces exactly the raw pages
`["A.", "B.", "C."]`, markers discarded. -/
theorem c9_marker_scenario :
    raw_pages "A.<span id=\"page-0-0\"></span>B.<span id=\"page-1-0\"></span>C.".toList =
      ["A.".toList, "B.".toList, "C.".toList] := by decide

/-- C10: every record returned by `repartition` duplicates its fields:
`text_md` equals `text` and `page_title` equals `title`, for every
splitter, fuel, page list and target. -/
theorem c10_field_duplication :
    ∀ (splitter : List Char → List ChunkFormat) (fuel : Nat)
      (pages : List (List Char)) (target : Nat) (out : List OutRecord),
      repartition splitter fuel pages target = some out →
      ∀ r ∈ out, r.text_md = r.text ∧ r.page_title = r.title := by
  intro splitter fuel pages target out h r hr
  rw [repartition] at h
  cases hpp : post_pass fuel (group_pages pages target) target with
  | none =>
    rw [hpp] at h
    exact absurd h (by simp)
  | some us =>
    rw [hpp] at h
    have hout := Option.some.inj h
    subst hout
    obtain ⟨c, hc, rfl⟩ := List.mem_map.mp hr
    exact ⟨rfl, rfl⟩

/-- Witness for C10 at a concrete splitter and input. -/
theorem c10_witness :
    (⟨"T".toList, "X".toList, "X".toList, "T".toList⟩ : OutRecord).text_md =
      (⟨"T".toList, "X".toList, "X".toList, "T".toList⟩ : OutRecord).text ∧
    (⟨"T".toList, "X".toList, "X".toList, "T".toList⟩ : OutRecord).page_title =
      (⟨"T".toList, "X".toList, "X".toList, "T".toList⟩ : OutRecord).title :=
  c10_field_duplication (fun _ => [⟨"T".toList, "X".toList⟩]) 1 ["hi".toList] 3000
    [⟨"T".toList, "X".toList, "X".toList, "T".toList⟩] (by decide)
    ⟨"T".toList, "X".toList, "X".toList, "T".toList⟩ (by simp)
